import Mathlib

/-!
Shallow embedding of the `terminalgl` rust crate (files `lib.rs`, `draw.rs`,
`drawc.rs`) and verification of its specification.

Conventions of the embedding:
* Rust `isize` coordinates are modelled as `Int` (the spec treats coordinates
  as mathematical integers; machine overflow is out of scope), Rust `usize`
  sizes as `Nat`.  Where the source performs a `usize` subtraction that can
  underflow (`height - 2` in `Surface::draw_rectangle`) the total model uses
  truncated `Nat` subtraction and the guarded model (`...E` definitions below)
  returns `none`, mirroring the rust panic.
* Rust `f64` values are modelled as `ℚ`.  The only non-rational `f64`
  operation used by the source is `sqrt`; the definitions that need it are
  parameterised by a function `sqrtf : ℚ → ℚ`.  `f64::round` followed by the
  `as isize` cast is modelled exactly by `roundQ` (round half away from zero).
  Division in `ℚ` is total with `q / 0 = 0`; in rust `f64` division by zero
  yields `NaN`/`inf` without panicking.  The separate division-guarded model
  `lineDivE` records when a division by zero is evaluated.
* Terminal output (`draw.rs` / `drawc.rs`) is modelled as the list of
  emissions: each executed `cursorto` + `print!` pair becomes one list entry.
-/

/-- `Direction` enum from `lib.rs` (also mirrored in `draw.rs`). -/
inductive Direction where
  | Left
  | Right
  | Up
  | Down
deriving DecidableEq, Repr

/-- `TextAlignment` enum used by `drawc::text_aligned`. -/
inductive TextAlignment where
  | AlignLeft
  | AlignCenter
  | AlignRight
deriving DecidableEq, Repr

/-- Rust `f64::round(..) as isize` on an exactly represented rational:
round half away from zero. -/
def roundQ (q : ℚ) : Int :=
  if 0 ≤ q then ⌊q + 1/2⌋ else ⌈q - 1/2⌉

/-- `Surface` struct from `lib.rs`: a width, a height and a grid of chars. -/
structure Surface where
  width : Nat
  height : Nat
  data : List (List Char)
deriving DecidableEq, Repr

namespace Surface

/-- `Surface::new`: a `width × height` grid filled with spaces. -/
def new (width height : Nat) : Surface :=
  { width := width, height := height,
    data := List.replicate height (List.replicate width ' ') }

/-- `Surface::fill`: replace the grid with one filled with `c`
(built from the stored `width`/`height` fields, as in the source). -/
def fill (s : Surface) (c : Char) : Surface :=
  { s with data := List.replicate s.height (List.replicate s.width c) }

/-- `Surface::draw_pixel`: bounds check against the stored dimensions, then
`self.data[y][x] = c`; returns the `placed` boolean. -/
def draw_pixel (s : Surface) (x y : Int) (c : Char) : Surface × Bool :=
  if 0 ≤ x ∧ x < (s.width : Int) ∧ 0 ≤ y ∧ y < (s.height : Int) then
    ({ s with data := s.data.set y.toNat ((s.data.getD y.toNat []).set x.toNat c) }, true)
  else
    (s, false)

/-- The `for _ in 0..length` loop body of `Surface::draw_straight_line`:
draw a pixel, then step by `(addx, addy)`. -/
def slLoop : Surface → Int → Int → Int → Int → Char → Nat → Surface
  | s, _, _, _, _, _, 0 => s
  | s, x, y, addx, addy, c, n + 1 =>
      slLoop ((s.draw_pixel x y c).1) (x + addx) (y + addy) addx addy c n

/-- `Surface::draw_straight_line`: pick the unit step from `dir`, flip step
and length when `length < 0`, then loop `length` times. -/
def draw_straight_line (s : Surface) (x y length : Int) (dir : Direction) (c : Char) :
    Surface :=
  let addx : Int := match dir with
    | .Left => -1 | .Right => 1 | .Up => 0 | .Down => 0
  let addy : Int := match dir with
    | .Left => 0 | .Right => 0 | .Up => -1 | .Down => 1
  if length < 0 then
    slLoop s x y (-addx) (-addy) c (-length).toNat
  else
    slLoop s x y addx addy c length.toNat

/-- The `for i in 0..width` loop of the filled branch of
`Surface::draw_rectangle`: vertical lines column by column. -/
def rectFillLoop (s : Surface) (x y : Int) (height : Nat) (c : Char) :
    Nat → Nat → Surface
  | _, 0 => s
  | i, n + 1 =>
      rectFillLoop (s.draw_straight_line (x + (i : Int)) y (height : Int) .Down c)
        x y height c (i + 1) n

/-- `Surface::draw_rectangle`.  Unfilled: top row, bottom row, left column
(from `y+1`, length the `usize` difference `height - 2`), right column
(from `y`, length the `isize` difference `height - 2`).  Filled: `width`
vertical lines of length `height`. -/
def draw_rectangle (s : Surface) (x y : Int) (width height : Nat) (c : Char)
    (fillFlag : Bool) : Surface :=
  if !fillFlag then
    let s1 := s.draw_straight_line x y (width : Int) .Right c
    let s2 := s1.draw_straight_line x (y + (height : Int) - 1) (width : Int) .Right c
    let s3 := s2.draw_straight_line x (y + 1) ((height - 2 : Nat) : Int) .Down c
    s3.draw_straight_line (x + (width : Int) - 1) y ((height : Int) - 2) .Down c
  else
    rectFillLoop s x y height c 0 width

/-- The floating-point accumulation loop of `Surface::draw_line`:
`dist.round() as isize` iterations, each rounding `(x, y)` to a cell. -/
def lineLoop : Surface → ℚ → ℚ → ℚ → ℚ → Char → Nat → Surface
  | s, _, _, _, _, _, 0 => s
  | s, qx, qy, dx, dy, c, n + 1 =>
      lineLoop ((s.draw_pixel (roundQ qx) (roundQ qy) c).1) (qx + dx) (qy + dy) dx dy c n

/-- `Surface::distance`: `sqrt((x2-x1)^2 + (y2-y1)^2)`, with `sqrt`
supplied as a parameter `sqrtf` modelling `f64::sqrt`. -/
def distance (sqrtf : ℚ → ℚ) (x1 y1 x2 y2 : Int) : ℚ :=
  sqrtf ((((x2 - x1) ^ 2 + (y2 - y1) ^ 2 : Int) : ℚ))

/-- `Surface::draw_line`: axis-aligned special cases (signed raw deltas),
then the general float-stepping path, then an explicit final endpoint write. -/
def draw_line (sqrtf : ℚ → ℚ) (s : Surface) (x1 y1 x2 y2 : Int) (c : Char) : Surface :=
  let sa := if x1 = x2 then s.draw_straight_line x1 y1 (y2 - y1) .Down c else s
  let sb := if y1 = y2 then sa.draw_straight_line x1 y1 (x2 - x1) .Right c else sa
  let dist := distance sqrtf x1 y1 x2 y2
  let dx := ((x2 - x1 : Int) : ℚ) / dist
  let dy := ((y2 - y1 : Int) : ℚ) / dist
  let sc := lineLoop sb ((x1 : ℚ)) ((y1 : ℚ)) dx dy c (roundQ dist).toNat
  (sc.draw_pixel x2 y2 c).1

/-- One column of `Surface::draw_ellipse` (`x` is the loop counter in
`0..a*2+1`): compute the boundary `y` and either fill the column or draw the
two boundary pixels. -/
def ellipseColumn (sqrtf : ℚ → ℚ) (s : Surface) (h k : Int) (a b : Nat) (c : Char)
    (fillFlag : Bool) (x : Nat) : Surface :=
  let shiftx : Int := (x : Int) + h - (a : Int)
  let inside : ℚ := ((((a * a : Nat) : Int) - (shiftx - h) ^ 2).natAbs : ℚ)
  let yq : ℚ := ((b : ℚ)) / ((a : ℚ)) * sqrtf inside + (k : ℚ)
  if fillFlag then
    let ydist : Int := 2 * (k - roundQ yq).natAbs
    s.draw_straight_line shiftx (roundQ yq) (ydist + 1) .Up c
  else
    let ydist : Int := 2 * (k - roundQ yq)
    let s1 := (s.draw_pixel shiftx (roundQ yq) c).1
    (s1.draw_pixel shiftx (roundQ yq + ydist) c).1

/-- The `for x in 0..a*2+1` loop of `Surface::draw_ellipse`. -/
def ellipseLoop (sqrtf : ℚ → ℚ) (s : Surface) (h k : Int) (a b : Nat) (c : Char)
    (fillFlag : Bool) : Nat → Nat → Surface
  | _, 0 => s
  | x, n + 1 =>
      ellipseLoop sqrtf (ellipseColumn sqrtf s h k a b c fillFlag x) h k a b c fillFlag
        (x + 1) n

/-- `Surface::draw_ellipse`. -/
def draw_ellipse (sqrtf : ℚ → ℚ) (s : Surface) (h k : Int) (a b : Nat) (c : Char)
    (fillFlag : Bool) : Surface :=
  ellipseLoop sqrtf s h k a b c fillFlag 0 (a * 2 + 1)

/-- The `for i in 0..points.len()` loop of `Surface::draw_polygon`.  The
total model replaces the panicking index operations `points[i][0]` etc. with
`getD` defaults; the guarded model below keeps them fallible. -/
def polyLoop (sqrtf : ℚ → ℚ) : Surface → List (List Int) → Char → Nat → Nat → Surface
  | s, _, _, _, 0 => s
  | s, pts, c, i, n + 1 =>
      let next := if i + 1 ≥ pts.length then 0 else i + 1
      let s1 := draw_line sqrtf s ((pts.getD i []).getD 0 0) ((pts.getD i []).getD 1 0)
        ((pts.getD next []).getD 0 0) ((pts.getD next []).getD 1 0) c
      polyLoop sqrtf s1 pts c (i + 1) n

/-- `Surface::draw_polygon`: a line between each consecutive pair of points
and a closing line back to the first point. -/
def draw_polygon (sqrtf : ℚ → ℚ) (s : Surface) (points : List (List Int)) (c : Char) :
    Surface :=
  polyLoop sqrtf s points c 0 points.length

/-- The `for (i, c) in text.chars().enumerate()` loop of
`Surface::draw_text`. -/
def textLoop : Surface → Int → Int → List Char → Nat → Surface
  | s, _, _, [], _ => s
  | s, x, y, c :: rest, i =>
      textLoop ((s.draw_pixel (x + (i : Int)) y c).1) x y rest (i + 1)

/-- `Surface::draw_text`. -/
def draw_text (s : Surface) (x y : Int) (text : String) : Surface :=
  textLoop s x y text.toList 0

/-- Inner loop of `Surface::blit`: one row of `other`, columns enumerated
by `j`; space characters are skipped. -/
def blitRow : Surface → Int → Int → List Char → Nat → Surface
  | s, _, _, [], _ => s
  | s, x, yy, c :: rest, j =>
      blitRow (if c = ' ' then s else (s.draw_pixel (x + (j : Int)) yy c).1) x yy rest (j + 1)

/-- Outer loop of `Surface::blit`: rows of `other` enumerated by `i`. -/
def blitRows : Surface → Int → Int → List (List Char) → Nat → Surface
  | s, _, _, [], _ => s
  | s, x, y, row :: rest, i =>
      blitRows (blitRow s x (y + (i : Int)) row 0) x y rest (i + 1)

/-- `Surface::blit`: overlay `other` onto `self` at offset `(x, y)`,
treating spaces as transparent. -/
def blit (s : Surface) (x y : Int) (other : Surface) : Surface :=
  blitRows s x y other.data 0

/-- Observation: the character stored at column `x`, row `y`, reading the
actual grid (`none` when the position is outside the grid). -/
def getCell (s : Surface) (x y : Int) : Option Char :=
  if 0 ≤ x ∧ 0 ≤ y then (s.data.get? y.toNat).bind (fun row => row.get? x.toNat)
  else none

/-- The grid shape invariant of `Surface`: `height` rows of `width` cells. -/
def wellFormed (s : Surface) : Prop :=
  s.data.length = s.height ∧ ∀ row ∈ s.data, row.length = s.width

instance (s : Surface) : Decidable s.wellFormed := by
  unfold wellFormed; infer_instance

/-- The bounds predicate used by `draw_pixel`. -/
def inBounds (s : Surface) (x y : Int) : Prop :=
  0 ≤ x ∧ x < (s.width : Int) ∧ 0 ≤ y ∧ y < (s.height : Int)

instance (s : Surface) (x y : Int) : Decidable (s.inBounds x y) := by
  unfold inBounds; infer_instance

end Surface

/-! ## Rasterizer write traces

The immediate-mode front-ends (`draw.rs`, `drawc.rs`) emit pixel writes to the
terminal instead of a buffer.  The rasterizer-level trace of an operation is
the list of `(x, y, c)` arguments of its `pixel` calls, i.e. the sequence of
writes handed to the sink before any sink-side filtering. -/

namespace draw

/-- `draw::pixel`'s emissions: `cursorto(x as usize, y as usize)` + the
character are emitted exactly when `x >= 0 && y >= 0` — there is no upper
bound check against the terminal size in this plain variant. -/
def pixelTrace (x y : Int) (c : Char) : List (Nat × Nat × Char) :=
  if 0 ≤ x ∧ 0 ≤ y then [(x.toNat, y.toNat, c)] else []

/-- The `for _ in 0..length` loop of `draw::straight_line`, as the list of
`pixel` call arguments. -/
def slWritesLoop : Int → Int → Int → Int → Char → Nat → List (Int × Int × Char)
  | _, _, _, _, _, 0 => []
  | x, y, addx, addy, c, n + 1 =>
      (x, y, c) :: slWritesLoop (x + addx) (y + addy) addx addy c n

/-- `draw::straight_line` as a write trace: unit step from `dir`, flipped
together with the length when `length < 0`. -/
def straightLineWrites (x y length : Int) (dir : Direction) (c : Char) :
    List (Int × Int × Char) :=
  let addx : Int := match dir with
    | .Left => -1 | .Right => 1 | .Up => 0 | .Down => 0
  let addy : Int := match dir with
    | .Left => 0 | .Right => 0 | .Up => -1 | .Down => 1
  if length < 0 then
    slWritesLoop x y (-addx) (-addy) c (-length).toNat
  else
    slWritesLoop x y addx addy c length.toNat

/-- Filled branch loop of `draw::rectangle` as a write trace. -/
def rectFillWrites (x y : Int) (height : Nat) (c : Char) : Nat → Nat → List (Int × Int × Char)
  | _, 0 => []
  | i, n + 1 =>
      straightLineWrites (x + (i : Int)) y (height : Int) .Down c ++
        rectFillWrites x y height c (i + 1) n

/-- `draw::rectangle` as a write trace.  Unfilled: top row, bottom row, and
both side columns from `y+1` with length `h-2` (all arithmetic on `isize`). -/
def rectangleWrites (x y : Int) (width height : Nat) (c : Char) (fillFlag : Bool) :
    List (Int × Int × Char) :=
  let w : Int := width
  let h : Int := height
  if fillFlag then
    rectFillWrites x y height c 0 width
  else
    straightLineWrites x y w .Right c ++
    straightLineWrites x (y + h - 1) w .Right c ++
    straightLineWrites x (y + 1) (h - 2) .Down c ++
    straightLineWrites (x + w - 1) (y + 1) (h - 2) .Down c

end draw

namespace Surface

/-- `Surface::draw_rectangle` as a write trace (the same `draw_straight_line`
calls the buffered version issues): unlike `draw::rectangle`, the left column
starts at `y+1` with the `usize` length `height - 2` while the right column
starts at `y` with the `isize` length `height - 2`. -/
def rectangleWritesLib (x y : Int) (width height : Nat) (c : Char) (fillFlag : Bool) :
    List (Int × Int × Char) :=
  if !fillFlag then
    draw.straightLineWrites x y (width : Int) .Right c ++
    draw.straightLineWrites x (y + (height : Int) - 1) (width : Int) .Right c ++
    draw.straightLineWrites x (y + 1) ((height - 2 : Nat) : Int) .Down c ++
    draw.straightLineWrites (x + (width : Int) - 1) y ((height : Int) - 2) .Down c
  else
    draw.rectFillWrites x y height c 0 width

end Surface

namespace drawc

/-- `drawc::pixel`'s emissions, parameterised by the queried terminal size
`tsize`: the colored variant drops the write unless the coordinate is inside
the terminal and the style token starts with the escape character. -/
def pixelTrace (tsize : Nat × Nat) (x y : Int) (c : Char) (ccode : String) :
    List (Nat × Nat × String × Char) :=
  if 0 ≤ x ∧ x < (tsize.1 : Int) ∧ 0 ≤ y ∧ y < (tsize.2 : Int) ∧
      ccode.startsWith "\x1b" then
    [(x.toNat, y.toNat, ccode, c)]
  else []

/-- The enumeration loop shared by `drawc::text` and `drawc::text_aligned`,
as the trace of `pixel` call arguments. -/
def textWritesLoop (x y : Int) : List Char → Nat → List (Int × Int × Char)
  | [], _ => []
  | c :: rest, i => (x + (i : Int), y, c) :: textWritesLoop x y rest (i + 1)

/-- `drawc::text_aligned` as a write trace: shift the anchor `x` left by
`text.len() / 2` (UTF-8 byte length, truncating integer division) for
`Center` and by `text.len()` for `Right`, then place each `char` of `text`
at consecutive columns. -/
def textAlignedWrites (x y : Int) (text : String) (align : TextAlignment) :
    List (Int × Int × Char) :=
  let x1 : Int := match align with
    | .AlignLeft => x
    | .AlignCenter => x - (text.utf8ByteSize : Int) / 2
    | .AlignRight => x - (text.utf8ByteSize : Int)
  textWritesLoop x1 y text.toList 0

end drawc

/-! ## Guarded embedding

The `...E` definitions re-run the buffered operations with every rust panic
source explicit: slice indexing returns `none` out of bounds, and the `usize`
subtraction `height - 2` in `Surface::draw_rectangle` returns `none` on
underflow.  Float arithmetic is total in rust (no panic), so it stays total
here. -/

/-- Guarded `usize` subtraction. -/
def checkedSub (a b : Nat) : Option Nat :=
  if b ≤ a then some (a - b) else none

namespace Surface

/-- Guarded 2D grid update `data[y][x] = c`: fails if either index is out of
bounds, as the rust indexing would panic. -/
def setCellE (rows : List (List Char)) (yi xi : Nat) (c : Char) :
    Option (List (List Char)) :=
  match rows.get? yi with
  | none => none
  | some row => if xi < row.length then some (rows.set yi (row.set xi c)) else none

/-- Guarded `Surface::draw_pixel`. -/
def draw_pixelE (s : Surface) (x y : Int) (c : Char) : Option (Surface × Bool) :=
  if 0 ≤ x ∧ x < (s.width : Int) ∧ 0 ≤ y ∧ y < (s.height : Int) then
    (setCellE s.data y.toNat x.toNat c).map (fun d => ({ s with data := d }, true))
  else
    some (s, false)

/-- Guarded loop of `Surface::draw_straight_line`. -/
def slLoopE : Surface → Int → Int → Int → Int → Char → Nat → Option Surface
  | s, _, _, _, _, _, 0 => some s
  | s, x, y, addx, addy, c, n + 1 =>
      (s.draw_pixelE x y c).bind fun p =>
        slLoopE p.1 (x + addx) (y + addy) addx addy c n

/-- Guarded `Surface::draw_straight_line`. -/
def draw_straight_lineE (s : Surface) (x y length : Int) (dir : Direction) (c : Char) :
    Option Surface :=
  let addx : Int := match dir with
    | .Left => -1 | .Right => 1 | .Up => 0 | .Down => 0
  let addy : Int := match dir with
    | .Left => 0 | .Right => 0 | .Up => -1 | .Down => 1
  if length < 0 then
    slLoopE s x y (-addx) (-addy) c (-length).toNat
  else
    slLoopE s x y addx addy c length.toNat

/-- Guarded filled-rectangle loop. -/
def rectFillLoopE (x y : Int) (height : Nat) (c : Char) :
    Surface → Nat → Nat → Option Surface
  | s, _, 0 => some s
  | s, i, n + 1 =>
      (s.draw_straight_lineE (x + (i : Int)) y (height : Int) .Down c).bind fun s1 =>
        rectFillLoopE x y height c s1 (i + 1) n

/-- Guarded `Surface::draw_rectangle`: the unfilled branch evaluates the
`usize` subtraction `height - 2`, which underflows for `height < 2`. -/
def draw_rectangleE (s : Surface) (x y : Int) (width height : Nat) (c : Char)
    (fillFlag : Bool) : Option Surface :=
  if !fillFlag then
    (s.draw_straight_lineE x y (width : Int) .Right c).bind fun s1 =>
    (s1.draw_straight_lineE x (y + (height : Int) - 1) (width : Int) .Right c).bind fun s2 =>
    (checkedSub height 2).bind fun hm2 =>
    (s2.draw_straight_lineE x (y + 1) (hm2 : Int) .Down c).bind fun s3 =>
    s3.draw_straight_lineE (x + (width : Int) - 1) y ((height : Int) - 2) .Down c
  else
    rectFillLoopE x y height c s 0 width

/-- Guarded float-accumulation loop of `Surface::draw_line`. -/
def lineLoopE : Surface → ℚ → ℚ → ℚ → ℚ → Char → Nat → Option Surface
  | s, _, _, _, _, _, 0 => some s
  | s, qx, qy, dx, dy, c, n + 1 =>
      (s.draw_pixelE (roundQ qx) (roundQ qy) c).bind fun p =>
        lineLoopE p.1 (qx + dx) (qy + dy) dx dy c n

/-- Guarded `Surface::draw_line` (float division stays total, as in rust). -/
def draw_lineE (sqrtf : ℚ → ℚ) (s : Surface) (x1 y1 x2 y2 : Int) (c : Char) :
    Option Surface :=
  (if x1 = x2 then s.draw_straight_lineE x1 y1 (y2 - y1) .Down c else some s).bind
    fun sa =>
  (if y1 = y2 then sa.draw_straight_lineE x1 y1 (x2 - x1) .Right c else some sa).bind
    fun sb =>
  let dist := distance sqrtf x1 y1 x2 y2
  let dx := ((x2 - x1 : Int) : ℚ) / dist
  let dy := ((y2 - y1 : Int) : ℚ) / dist
  (lineLoopE sb ((x1 : ℚ)) ((y1 : ℚ)) dx dy c (roundQ dist).toNat).bind fun sc =>
  (sc.draw_pixelE x2 y2 c).map (·.1)

/-- Guarded single ellipse column. -/
def ellipseColumnE (sqrtf : ℚ → ℚ) (s : Surface) (h k : Int) (a b : Nat) (c : Char)
    (fillFlag : Bool) (x : Nat) : Option Surface :=
  let shiftx : Int := (x : Int) + h - (a : Int)
  let inside : ℚ := ((((a * a : Nat) : Int) - (shiftx - h) ^ 2).natAbs : ℚ)
  let yq : ℚ := ((b : ℚ)) / ((a : ℚ)) * sqrtf inside + (k : ℚ)
  if fillFlag then
    let ydist : Int := 2 * (k - roundQ yq).natAbs
    s.draw_straight_lineE shiftx (roundQ yq) (ydist + 1) .Up c
  else
    let ydist : Int := 2 * (k - roundQ yq)
    (s.draw_pixelE shiftx (roundQ yq) c).bind fun p1 =>
      (p1.1.draw_pixelE shiftx (roundQ yq + ydist) c).map (·.1)

/-- Guarded ellipse column loop. -/
def ellipseLoopE (sqrtf : ℚ → ℚ) (h k : Int) (a b : Nat) (c : Char) (fillFlag : Bool) :
    Surface → Nat → Nat → Option Surface
  | s, _, 0 => some s
  | s, x, n + 1 =>
      (ellipseColumnE sqrtf s h k a b c fillFlag x).bind fun s1 =>
        ellipseLoopE sqrtf h k a b c fillFlag s1 (x + 1) n

/-- Guarded `Surface::draw_ellipse`. -/
def draw_ellipseE (sqrtf : ℚ → ℚ) (s : Surface) (h k : Int) (a b : Nat) (c : Char)
    (fillFlag : Bool) : Option Surface :=
  ellipseLoopE sqrtf h k a b c fillFlag s 0 (a * 2 + 1)

/-- Guarded polygon loop: the index operations `points[i][0]`, `points[i][1]`
(and the same on `points[next]`) are fallible, as the rust indexing panics
when a sub-vector is too short. -/
def polyLoopE (sqrtf : ℚ → ℚ) (pts : List (List Int)) (c : Char) :
    Surface → Nat → Nat → Option Surface
  | s, _, 0 => some s
  | s, i, n + 1 =>
      (pts.get? i).bind fun pi =>
      (pi.get? 0).bind fun px =>
      (pi.get? 1).bind fun py =>
      let next := if i + 1 ≥ pts.length then 0 else i + 1
      (pts.get? next).bind fun pn =>
      (pn.get? 0).bind fun nx =>
      (pn.get? 1).bind fun ny =>
      (draw_lineE sqrtf s px py nx ny c).bind fun s1 =>
        polyLoopE sqrtf pts c s1 (i + 1) n

/-- Guarded `Surface::draw_polygon`. -/
def draw_polygonE (sqrtf : ℚ → ℚ) (s : Surface) (points : List (List Int)) (c : Char) :
    Option Surface :=
  polyLoopE sqrtf points c s 0 points.length

/-- Guarded text loop. -/
def textLoopE (x y : Int) : Surface → List Char → Nat → Option Surface
  | s, [], _ => some s
  | s, c :: rest, i =>
      (s.draw_pixelE (x + (i : Int)) y c).bind fun p =>
        textLoopE x y p.1 rest (i + 1)

/-- Guarded `Surface::draw_text`. -/
def draw_textE (s : Surface) (x y : Int) (text : String) : Option Surface :=
  textLoopE x y s text.toList 0

/-- Guarded blit row loop. -/
def blitRowE (x yy : Int) : Surface → List Char → Nat → Option Surface
  | s, [], _ => some s
  | s, c :: rest, j =>
      (if c = ' ' then some s else (s.draw_pixelE (x + (j : Int)) yy c).map (·.1)).bind
        fun s1 => blitRowE x yy s1 rest (j + 1)

/-- Guarded blit rows loop. -/
def blitRowsE (x y : Int) : Surface → List (List Char) → Nat → Option Surface
  | s, [], _ => some s
  | s, row :: rest, i =>
      (blitRowE x (y + (i : Int)) s row 0).bind fun s1 => blitRowsE x y s1 rest (i + 1)

/-- Guarded `Surface::blit`. -/
def blitE (s : Surface) (x y : Int) (other : Surface) : Option Surface :=
  blitRowsE x y s other.data 0

/-- Guarded rational division (`none` exactly on a zero divisor), used only
by `draw_lineDivE` to record whether a division by zero is evaluated. -/
def divE (a b : ℚ) : Option ℚ :=
  if b = 0 then none else some (a / b)

/-- `Surface::draw_line` in an embedding whose division is guarded: identical
to `draw_line` except that computing `dx`/`dy` fails when the distance is
zero.  This records whether the division by a zero distance is evaluated. -/
def draw_lineDivE (sqrtf : ℚ → ℚ) (s : Surface) (x1 y1 x2 y2 : Int) (c : Char) :
    Option Surface :=
  let sa := if x1 = x2 then s.draw_straight_line x1 y1 (y2 - y1) .Down c else s
  let sb := if y1 = y2 then sa.draw_straight_line x1 y1 (x2 - x1) .Right c else sa
  let dist := distance sqrtf x1 y1 x2 y2
  (divE ((x2 - x1 : Int) : ℚ) dist).bind fun dx =>
  (divE ((y2 - y1 : Int) : ℚ) dist).bind fun dy =>
  some ((lineLoop sb ((x1 : ℚ)) ((y1 : ℚ)) dx dy c (roundQ dist).toNat).draw_pixel x2 y2 c).1

end Surface

/-! ## Helper lemmas -/

/-- An ASCII character (code point below 128) occupies one UTF-8 byte. -/
theorem utf8Size_of_ascii (c : Char) (h : c.toNat < 128) : c.utf8Size = 1 := by
  unfold Char.utf8Size
  rw [if_pos]
  rw [UInt32.le_def]
  show c.val.toNat ≤ 127
  have h2 : c.val.toNat < 128 := h
  omega

/-- The UTF-8 byte count of an all-ASCII character list is its length. -/
theorem utf8ByteSize_go_of_ascii (l : List Char) (h : ∀ c ∈ l, c.toNat < 128) :
    String.utf8ByteSize.go l = l.length := by
  induction l with
  | nil => rfl
  | cons c cs ih =>
      have h1 : c.utf8Size = 1 := utf8Size_of_ascii c (h c (by simp))
      have h2 := ih (fun d hd => h d (by simp [hd]))
      show String.utf8ByteSize.go cs + c.utf8Size = cs.length + 1
      omega

/-- The text loop places character `i` of the list at column `x + i`. -/
theorem textWritesLoop_eq_enumFrom (x y : Int) (l : List Char) :
    ∀ i, drawc.textWritesLoop x y l i =
      (List.enumFrom i l).map fun p => (x + (p.1 : Int), y, p.2) := by
  induction l with
  | nil => intro i; rfl
  | cons c cs ih => intro i; simp [drawc.textWritesLoop, List.enumFrom, ih (i + 1)]

/-! ## Claim theorems -/

/-- C1 (supporting evaluation for the code bug): at `x = 0, y = 0,
width = 2, height = 3, fill = false`, the buffered `Surface::draw_rectangle`
issues writes covering only `5` distinct cells — the border cell `(1, 1)`
above the bottom-right corner is never written — while the claimed count
`2w + 2h - 4 = 6` is exactly what the immediate-mode `draw::rectangle`
produces on the same input; the filled counts agree at `w * h`. -/
theorem C1_lib_rectangle_diverges :
    ((Surface.rectangleWritesLib 0 0 2 3 '#' false).map (fun t => (t.1, t.2.1))).dedup.length
        = 5
    ∧ ((1, 1) : Int × Int) ∉
        ((Surface.rectangleWritesLib 0 0 2 3 '#' false).map (fun t => (t.1, t.2.1)))
    ∧ ((draw.rectangleWrites 0 0 2 3 '#' false).map (fun t => (t.1, t.2.1))).dedup.length
        = 2 * 2 + 2 * 3 - 4
    ∧ ((Surface.rectangleWritesLib 0 0 2 3 '#' true).map (fun t => (t.1, t.2.1))).dedup.length
        = 2 * 3 := by
  decide

/-- C5: `straight_line(x, y, L, Right, c)` issues exactly the same writes as
`straight_line(x, y, -L, Left, c)` for every integer `L` (shown both for the
immediate-mode write trace and for the buffered surface operation), and a
zero length draws nothing in any direction. -/
theorem C5_straight_line_sign_mirror (x y L : Int) (c : Char) :
    draw.straightLineWrites x y L .Right c = draw.straightLineWrites x y (-L) .Left c
    ∧ (∀ s : Surface,
        s.draw_straight_line x y L .Right c = s.draw_straight_line x y (-L) .Left c)
    ∧ (∀ dir : Direction, draw.straightLineWrites x y 0 dir c = [])
    ∧ (∀ (s : Surface) (dir : Direction), s.draw_straight_line x y 0 dir c = s) := by
  refine ⟨?_, fun s => ?_, fun dir => ?_, fun s dir => ?_⟩
  · unfold draw.straightLineWrites
    rcases lt_trichotomy L 0 with h | h | h
    · simp [h, not_lt.mpr (by omega : (0:Int) ≤ -L)]
    · subst h; simp [draw.slWritesLoop]
    · simp [not_lt.mpr (by omega : (0:Int) ≤ L), (by omega : -L < 0)]
  · unfold Surface.draw_straight_line
    rcases lt_trichotomy L 0 with h | h | h
    · simp [h, not_lt.mpr (by omega : (0:Int) ≤ -L)]
    · subst h; simp [Surface.slLoop]
    · simp [not_lt.mpr (by omega : (0:Int) ≤ L), (by omega : -L < 0)]
  · cases dir <;> simp [draw.straightLineWrites, draw.slWritesLoop]
  · cases dir <;> simp [Surface.draw_straight_line, Surface.slLoop]

/-- C7 (counterexample): at the concrete coordinate `(-1, 0)` the plain
immediate-mode `draw::pixel` emits nothing — it does not attempt the write,
because the source checks `x >= 0 && y >= 0` before emitting. -/
theorem C7_counterexample : draw.pixelTrace (-1) 0 '#' = [] := by decide

/-- C7 (amended): the plain `draw::pixel` emits the cursor move and the
character for every coordinate with `x ≥ 0` and `y ≥ 0` — with no upper
bounds check against the terminal size, unlike the colored `drawc::pixel`,
which drops any write at `x ≥` the queried width — and emits nothing when
`x < 0` or `y < 0`. -/
theorem C7_plain_pixel_nonneg_unbounded (x y : Int) (c : Char) :
    (0 ≤ x → 0 ≤ y → draw.pixelTrace x y c = [(x.toNat, y.toNat, c)])
    ∧ (x < 0 ∨ y < 0 → draw.pixelTrace x y c = [])
    ∧ ∀ (tsize : Nat × Nat) (ccode : String), (tsize.1 : Int) ≤ x →
        drawc.pixelTrace tsize x y c ccode = [] := by
  refine ⟨fun hx hy => ?_, fun h => ?_, fun tsize ccode hle => ?_⟩
  · simp [draw.pixelTrace, hx, hy]
  · simp only [draw.pixelTrace, ite_eq_right_iff]
    intro hc
    omega
  · simp only [drawc.pixelTrace, ite_eq_right_iff]
    intro hc
    omega

/-- C7 witness: the amended theorem at concrete inputs — column `99` of row
`2` is written by the plain variant even though it lies beyond an `80 × 24`
terminal, where the colored variant drops it; `(-1, 2)` is dropped. -/
theorem C7_plain_pixel_nonneg_unbounded_witness :
    draw.pixelTrace 99 2 'a' = [(99, 2, 'a')]
    ∧ draw.pixelTrace (-1) 2 'a' = []
    ∧ drawc.pixelTrace (80, 24) 99 2 'a' "\x1b[31m" = [] :=
  ⟨(C7_plain_pixel_nonneg_unbounded 99 2 'a').1 (by decide) (by decide),
   (C7_plain_pixel_nonneg_unbounded (-1) 2 'a').2.1 (Or.inl (by decide)),
   (C7_plain_pixel_nonneg_unbounded 99 2 'a').2.2 (80, 24) "\x1b[31m" (by decide)⟩

/-- The anchor column described by the spec for `text_aligned`: unshifted for
`Left`, shifted left by `len / 2` (truncating integer division) for `Center`
and by the full `len` for `Right`, where `len` is `text.len()` — the UTF-8
byte length of the text. -/
def specAnchor (x : Int) (text : String) (align : TextAlignment) : Int :=
  match align with
  | .AlignLeft => x
  | .AlignCenter => x - (text.utf8ByteSize : Int) / 2
  | .AlignRight => x - (text.utf8ByteSize : Int)

/-- C8: `text_aligned` places the characters of `s` left-to-right, the `i`-th
character at column `specAnchor + i`, and in particular
`text_aligned(10, 3, "hi", Center, _)` places `'h'` at column 9 and `'i'` at
column 10. -/
theorem C8_text_aligned_anchor (x y : Int) (s : String) (a : TextAlignment) :
    drawc.textAlignedWrites x y s a =
      (s.toList.enum.map fun p => (specAnchor x s a + (p.1 : Int), y, p.2))
    ∧ drawc.textAlignedWrites 10 3 "hi" .AlignCenter = [(9, 3, 'h'), (10, 3, 'i')] := by
  constructor
  · unfold drawc.textAlignedWrites specAnchor
    cases a <;> simp [textWritesLoop_eq_enumFrom, List.enum]
  · decide

/-- C10: the shift applied by `text_aligned` for `Right` alignment is the
UTF-8 byte length of the text (the first write of a nonempty text lands at
`x - utf8ByteSize`), while exactly one cell is placed per character; for an
all-ASCII text the shift equals the number of placed cells, but for the
two-byte one-character text `"é"` the shift (2) strictly exceeds the placed
cell count (1). -/
theorem C10_right_shift_is_byte_length (x y : Int) (s : String) (h : s.toList ≠ []) :
    (drawc.textAlignedWrites x y s .AlignRight).head?.map (fun t => t.1) =
        some (x - (s.utf8ByteSize : Int))
    ∧ (drawc.textAlignedWrites x y s .AlignRight).length = s.toList.length
    ∧ ((∀ c ∈ s.toList, c.toNat < 128) → s.utf8ByteSize = s.toList.length)
    ∧ drawc.textAlignedWrites 0 0 "é" .AlignRight = [(-2, 0, 'é')]
    ∧ "é".utf8ByteSize = 2 ∧ "é".toList.length = 1 := by
  obtain ⟨l⟩ := s
  refine ⟨?_, ?_, fun hascii => ?_, by decide, by decide, by decide⟩
  · unfold drawc.textAlignedWrites
    match l, h with
    | c :: rest, _ => simp [drawc.textWritesLoop]
  · unfold drawc.textAlignedWrites
    rw [textWritesLoop_eq_enumFrom]
    simp
  · show String.utf8ByteSize.go l = l.length
    exact utf8ByteSize_go_of_ascii l hascii

/-- C10 witness: the theorem applied to the nonempty string `"hi"`. -/
theorem C10_right_shift_is_byte_length_witness :
    (drawc.textAlignedWrites 5 0 "hi" .AlignRight).head?.map (fun t => t.1) =
        some (5 - ("hi".utf8ByteSize : Int))
    ∧ (drawc.textAlignedWrites 5 0 "hi" .AlignRight).length = "hi".toList.length
    ∧ ((∀ c ∈ "hi".toList, c.toNat < 128) → "hi".utf8ByteSize = "hi".toList.length)
    ∧ drawc.textAlignedWrites 0 0 "é" .AlignRight = [(-2, 0, 'é')]
    ∧ "é".utf8ByteSize = 2 ∧ "é".toList.length = 1 :=
  C10_right_shift_is_byte_length 5 0 "hi" (by decide)

namespace Surface

/-- Dimension-and-invariant preservation from surface `s` to surface `t`:
the stored dimensions agree and well-formedness carries over. -/
def pres (s t : Surface) : Prop :=
  t.width = s.width ∧ t.height = s.height ∧ (s.wellFormed → t.wellFormed)

theorem pres_refl (s : Surface) : pres s s := ⟨rfl, rfl, id⟩

theorem pres_trans {s t u : Surface} (h1 : pres s t) (h2 : pres t u) : pres s u :=
  ⟨h2.1.trans h1.1, h2.2.1.trans h1.2.1, fun hw => h2.2.2 (h1.2.2 hw)⟩

/-- `draw_pixel` keeps the dimensions and the grid shape invariant. -/
theorem pres_draw_pixel (s : Surface) (x y : Int) (c : Char) :
    pres s (s.draw_pixel x y c).1 := by
  unfold draw_pixel
  split
  · rename_i hin
    refine ⟨rfl, rfl, fun ⟨hl, hrows⟩ => ⟨by simpa using hl, ?_⟩⟩
    intro row hrow
    rcases List.mem_or_eq_of_mem_set hrow with h | h
    · exact hrows row h
    · subst h
      rw [List.length_set]
      have hy : y.toNat < s.data.length := by rw [hl]; omega
      rw [List.getD_eq_getElem?_getD, List.getElem?_eq_getElem hy]
      exact hrows _ (List.getElem_mem hy)
  · exact pres_refl s

/-- Pointwise effect of `draw_pixel` on a well-formed surface: the cell
`(x, y)` becomes `c` when it is in bounds, every other cell is unchanged. -/
theorem getCell_draw_pixel (s : Surface) (hWF : s.wellFormed) (x y px py : Int) (c : Char) :
    ((s.draw_pixel x y c).1).getCell px py =
      if px = x ∧ py = y ∧ s.inBounds x y then some c else s.getCell px py := by
  obtain ⟨hl, hrows⟩ := hWF
  by_cases hin : 0 ≤ x ∧ x < (s.width : Int) ∧ 0 ≤ y ∧ y < (s.height : Int)
  case neg =>
    unfold draw_pixel
    rw [if_neg hin, if_neg (fun hc => hin hc.2.2)]
  case pos =>
    unfold draw_pixel
    rw [if_pos hin]
    by_cases hp : 0 ≤ px ∧ 0 ≤ py
    case neg =>
      unfold getCell inBounds
      rw [if_neg hp, if_neg hp,
        if_neg (by rintro ⟨rfl, rfl, h⟩; exact hp ⟨h.1, h.2.2.1⟩)]
    case pos =>
      have hy : y.toNat < s.data.length := by rw [hl]; omega
      have hrowD : s.data.getD y.toNat [] = s.data[y.toNat] := by
        rw [List.getD_eq_getElem?_getD, List.getElem?_eq_getElem hy]; rfl
      have hrowlen : (s.data[y.toNat]).length = s.width :=
        hrows _ (List.getElem_mem hy)
      unfold getCell inBounds
      rw [if_pos hp, if_pos hp]
      simp only [List.get?_eq_getElem?]
      show ((s.data.set y.toNat _)[py.toNat]?.bind fun row => row[px.toNat]?) = _
      rw [List.getElem?_set]
      by_cases hyy : y.toNat = py.toNat
      · rw [if_pos hyy, if_pos hy]
        rw [hrowD]
        show (s.data[y.toNat].set x.toNat c)[px.toNat]? = _
        rw [List.getElem?_set]
        by_cases hxx : x.toNat = px.toNat
        · rw [if_pos hxx, if_pos (by omega)]
          rw [if_pos ⟨by omega, by omega, hin⟩]
        · rw [if_neg hxx,
            if_neg (by rintro ⟨rfl, rfl, _⟩; exact hxx rfl),
            show py.toNat = y.toNat from hyy.symm,
            List.getElem?_eq_getElem hy]
          rfl
      · rw [if_neg hyy,
          if_neg (by rintro ⟨rfl, rfl, _⟩; exact hyy rfl)]

end Surface

namespace Surface

/-- A zero-length straight line leaves the surface untouched. -/
theorem draw_straight_line_zero (s : Surface) (x y : Int) (dir : Direction) (c : Char) :
    s.draw_straight_line x y 0 dir c = s := by
  cases dir <;> simp [draw_straight_line, slLoop]

theorem pres_slLoop (n : Nat) : ∀ (s : Surface) (x y ax ay : Int) (c : Char),
    pres s (slLoop s x y ax ay c n) := by
  induction n with
  | zero => intro s x y ax ay c; exact pres_refl s
  | succ n ih =>
      intro s x y ax ay c
      exact pres_trans (pres_draw_pixel s x y c) (ih _ _ _ _ _ _)

theorem pres_draw_straight_line (s : Surface) (x y L : Int) (dir : Direction) (c : Char) :
    pres s (s.draw_straight_line x y L dir c) := by
  unfold draw_straight_line
  cases dir <;> dsimp only <;> split <;> apply pres_slLoop

theorem pres_rectFillLoop (n : Nat) : ∀ (s : Surface) (x y : Int) (height : Nat)
    (c : Char) (i : Nat), pres s (rectFillLoop s x y height c i n) := by
  induction n with
  | zero => intro s x y height c i; exact pres_refl s
  | succ n ih =>
      intro s x y height c i
      exact pres_trans (pres_draw_straight_line ..) (ih ..)

theorem pres_draw_rectangle (s : Surface) (x y : Int) (width height : Nat) (c : Char)
    (fillFlag : Bool) : pres s (s.draw_rectangle x y width height c fillFlag) := by
  unfold draw_rectangle
  split
  · exact pres_trans (pres_draw_straight_line ..)
      (pres_trans (pres_draw_straight_line ..)
        (pres_trans (pres_draw_straight_line ..) (pres_draw_straight_line ..)))
  · exact pres_rectFillLoop ..

theorem pres_lineLoop (n : Nat) : ∀ (s : Surface) (qx qy dx dy : ℚ) (c : Char),
    pres s (lineLoop s qx qy dx dy c n) := by
  induction n with
  | zero => intro s qx qy dx dy c; exact pres_refl s
  | succ n ih =>
      intro s qx qy dx dy c
      exact pres_trans (pres_draw_pixel ..) (ih ..)

theorem pres_draw_line (sqrtf : ℚ → ℚ) (s : Surface) (x1 y1 x2 y2 : Int) (c : Char) :
    pres s (draw_line sqrtf s x1 y1 x2 y2 c) := by
  unfold draw_line
  dsimp only
  have h1 : pres s (if x1 = x2 then s.draw_straight_line x1 y1 (y2 - y1) .Down c else s) := by
    split
    · exact pres_draw_straight_line ..
    · exact pres_refl s
  have h2 : pres (if x1 = x2 then s.draw_straight_line x1 y1 (y2 - y1) .Down c else s)
      (if y1 = y2 then
        (if x1 = x2 then s.draw_straight_line x1 y1 (y2 - y1) .Down c
          else s).draw_straight_line x1 y1 (x2 - x1) .Right c
      else (if x1 = x2 then s.draw_straight_line x1 y1 (y2 - y1) .Down c else s)) := by
    by_cases hy : y1 = y2
    · rw [if_pos hy]; exact pres_draw_straight_line ..
    · rw [if_neg hy]; exact pres_refl _
  exact pres_trans h1 (pres_trans h2 (pres_trans (pres_lineLoop ..) (pres_draw_pixel ..)))

theorem pres_ellipseColumn (sqrtf : ℚ → ℚ) (s : Surface) (h k : Int) (a b : Nat)
    (c : Char) (fillFlag : Bool) (x : Nat) :
    pres s (ellipseColumn sqrtf s h k a b c fillFlag x) := by
  unfold ellipseColumn
  split
  · exact pres_draw_straight_line ..
  · exact pres_trans (pres_draw_pixel ..) (pres_draw_pixel ..)

theorem pres_ellipseLoop (n : Nat) : ∀ (sqrtf : ℚ → ℚ) (s : Surface) (h k : Int)
    (a b : Nat) (c : Char) (fillFlag : Bool) (x : Nat),
    pres s (ellipseLoop sqrtf s h k a b c fillFlag x n) := by
  induction n with
  | zero => intro sqrtf s h k a b c fillFlag x; exact pres_refl s
  | succ n ih =>
      intro sqrtf s h k a b c fillFlag x
      exact pres_trans (pres_ellipseColumn ..) (ih ..)

theorem pres_draw_ellipse (sqrtf : ℚ → ℚ) (s : Surface) (h k : Int) (a b : Nat)
    (c : Char) (fillFlag : Bool) : pres s (draw_ellipse sqrtf s h k a b c fillFlag) :=
  pres_ellipseLoop ..

theorem pres_polyLoop (n : Nat) : ∀ (sqrtf : ℚ → ℚ) (s : Surface)
    (pts : List (List Int)) (c : Char) (i : Nat),
    pres s (polyLoop sqrtf s pts c i n) := by
  induction n with
  | zero => intro sqrtf s pts c i; exact pres_refl s
  | succ n ih =>
      intro sqrtf s pts c i
      exact pres_trans (pres_draw_line ..) (ih ..)

theorem pres_draw_polygon (sqrtf : ℚ → ℚ) (s : Surface) (points : List (List Int))
    (c : Char) : pres s (draw_polygon sqrtf s points c) :=
  pres_polyLoop ..

theorem pres_textLoop (l : List Char) : ∀ (s : Surface) (x y : Int) (i : Nat),
    pres s (textLoop s x y l i) := by
  induction l with
  | nil => intro s x y i; exact pres_refl s
  | cons c rest ih =>
      intro s x y i
      exact pres_trans (pres_draw_pixel ..) (ih ..)

theorem pres_draw_text (s : Surface) (x y : Int) (t : String) :
    pres s (s.draw_text x y t) :=
  pres_textLoop ..

theorem pres_blitRow (row : List Char) : ∀ (s : Surface) (x yy : Int) (j : Nat),
    pres s (blitRow s x yy row j) := by
  induction row with
  | nil => intro s x yy j; exact pres_refl s
  | cons c rest ih =>
      intro s x yy j
      refine pres_trans (t := if c = ' ' then s else (s.draw_pixel (x + (j : Int)) yy c).1)
        ?_ (ih ..)
      split
      · exact pres_refl s
      · exact pres_draw_pixel ..

theorem pres_blitRows (rows : List (List Char)) : ∀ (s : Surface) (x y : Int) (i : Nat),
    pres s (blitRows s x y rows i) := by
  induction rows with
  | nil => intro s x y i; exact pres_refl s
  | cons row rest ih =>
      intro s x y i
      exact pres_trans (pres_blitRow ..) (ih ..)

theorem pres_blit (s : Surface) (x y : Int) (other : Surface) :
    pres s (s.blit x y other) :=
  pres_blitRows ..

/-- `fill` keeps the dimensions and (re)establishes the shape invariant. -/
theorem pres_fill (s : Surface) (c : Char) : pres s (s.fill c) := by
  refine ⟨rfl, rfl, fun _ => ⟨by simp [fill], ?_⟩⟩
  intro row hrow
  rw [List.eq_of_mem_replicate hrow, List.length_replicate]
  rfl

/-- `new` produces a well-formed surface. -/
theorem wf_new (w h : Nat) : (new w h).wellFormed := by
  refine ⟨by simp [new, wellFormed], fun row hrow => ?_⟩
  rw [List.eq_of_mem_replicate hrow]
  simp [new]

end Surface

/-- C2: on a well-formed surface, `draw_pixel` at an in-bounds coordinate
returns `true` and leaves `c` in the addressed cell; at an out-of-bounds
coordinate it returns `false` and the surface is entirely unchanged. -/
theorem C2_draw_pixel_spec (s : Surface) (x y : Int) (c : Char) (hWF : s.wellFormed) :
    (s.inBounds x y →
      (s.draw_pixel x y c).2 = true ∧ ((s.draw_pixel x y c).1).getCell x y = some c)
    ∧ (¬ s.inBounds x y →
      (s.draw_pixel x y c).2 = false ∧ (s.draw_pixel x y c).1 = s) := by
  constructor
  · intro hin
    have hin2 : 0 ≤ x ∧ x < (s.width : Int) ∧ 0 ≤ y ∧ y < (s.height : Int) := hin
    constructor
    · unfold Surface.draw_pixel
      rw [if_pos hin2]
    · rw [Surface.getCell_draw_pixel s hWF x y x y c, if_pos ⟨rfl, rfl, hin⟩]
  · intro hout
    have hout2 : ¬(0 ≤ x ∧ x < (s.width : Int) ∧ 0 ≤ y ∧ y < (s.height : Int)) := hout
    unfold Surface.draw_pixel
    rw [if_neg hout2]
    exact ⟨rfl, rfl⟩

/-- C2 witness: on a fresh `3 × 2` surface, `(1, 1)` is written and reported
placed, while `(3, 0)` is rejected with the grid untouched. -/
theorem C2_draw_pixel_spec_witness :
    (((Surface.new 3 2).draw_pixel 1 1 '#').2 = true
      ∧ ((Surface.new 3 2).draw_pixel 1 1 '#').1.getCell 1 1 = some '#')
    ∧ (((Surface.new 3 2).draw_pixel 3 0 '#').2 = false
      ∧ ((Surface.new 3 2).draw_pixel 3 0 '#').1 = Surface.new 3 2) :=
  ⟨(C2_draw_pixel_spec (Surface.new 3 2) 1 1 '#' (by decide)).1 (by decide),
   (C2_draw_pixel_spec (Surface.new 3 2) 3 0 '#' (by decide)).2 (by decide)⟩

/-- A drawing operation of the public `Surface` interface together with its
arguments (`line`, `ellipse` and `polygon` carry the `f64::sqrt` model they
are evaluated with; `blit` carries the overlay surface). -/
inductive Op where
  | fill (c : Char)
  | pixel (x y : Int) (c : Char)
  | straightLine (x y len : Int) (dir : Direction) (c : Char)
  | rectangle (x y : Int) (width height : Nat) (c : Char) (fillFlag : Bool)
  | line (sqrtf : ℚ → ℚ) (x1 y1 x2 y2 : Int) (c : Char)
  | ellipse (sqrtf : ℚ → ℚ) (h k : Int) (a b : Nat) (c : Char) (fillFlag : Bool)
  | polygon (sqrtf : ℚ → ℚ) (points : List (List Int)) (c : Char)
  | text (x y : Int) (t : String)
  | blit (x y : Int) (other : Surface)

/-- Run one drawing operation on a surface. -/
def applyOp (s : Surface) : Op → Surface
  | .fill c => s.fill c
  | .pixel x y c => (s.draw_pixel x y c).1
  | .straightLine x y len dir c => s.draw_straight_line x y len dir c
  | .rectangle x y w h c f => s.draw_rectangle x y w h c f
  | .line sqrtf x1 y1 x2 y2 c => Surface.draw_line sqrtf s x1 y1 x2 y2 c
  | .ellipse sqrtf h k a b c f => Surface.draw_ellipse sqrtf s h k a b c f
  | .polygon sqrtf pts c => Surface.draw_polygon sqrtf s pts c
  | .text x y t => s.draw_text x y t
  | .blit x y other => s.blit x y other

theorem pres_applyOp (s : Surface) (o : Op) : s.pres (applyOp s o) := by
  cases o with
  | fill c => exact Surface.pres_fill ..
  | pixel x y c => exact Surface.pres_draw_pixel ..
  | straightLine x y len dir c => exact Surface.pres_draw_straight_line ..
  | rectangle x y w h c f => exact Surface.pres_draw_rectangle ..
  | line sqrtf x1 y1 x2 y2 c => exact Surface.pres_draw_line ..
  | ellipse sqrtf h k a b c f => exact Surface.pres_draw_ellipse ..
  | polygon sqrtf pts c => exact Surface.pres_draw_polygon ..
  | text x y t => exact Surface.pres_draw_text ..
  | blit x y other => exact Surface.pres_blit ..

theorem pres_foldl (ops : List Op) : ∀ s : Surface, s.pres (ops.foldl applyOp s) := by
  induction ops with
  | nil => intro s; exact Surface.pres_refl s
  | cons o rest ih =>
      intro s
      exact Surface.pres_trans (pres_applyOp s o) (ih (applyOp s o))

/-- C9: after any finite sequence of drawing operations on `new w h`, the
grid still has exactly `h` rows, every row has exactly `w` cells, and
`width()` / `height()` still return the construction-time values. -/
theorem C9_shape_invariant (w h : Nat) (ops : List Op) :
    (ops.foldl applyOp (Surface.new w h)).width = w
    ∧ (ops.foldl applyOp (Surface.new w h)).height = h
    ∧ (ops.foldl applyOp (Surface.new w h)).data.length = h
    ∧ ∀ row ∈ (ops.foldl applyOp (Surface.new w h)).data, row.length = w := by
  have hpres := pres_foldl ops (Surface.new w h)
  have hWF := hpres.2.2 (Surface.wf_new w h)
  refine ⟨hpres.1, hpres.2.1, ?_, ?_⟩
  · rw [hWF.1, hpres.2.1]
    rfl
  · intro row hrow
    rw [hWF.2 row hrow, hpres.1]
    rfl

/-- C6 (counterexample): in the embedding whose division is guarded, the
duplicate-point call `line(1, 1, 1, 1, c)` fails — the general path evaluates
the division `(x2-x1)/d` with `d = 0` (in rust this is a float `0.0/0.0`
yielding `NaN`, not a panic); the claimed guard does not exist in the code. -/
theorem C6_counterexample :
    Surface.draw_lineDivE Rat.sqrt (Surface.new 3 3) 1 1 1 1 '#' = none := by
  decide

/-- C6 (amended): for a duplicate point the division by the zero distance is
evaluated (harmlessly: the resulting quotients are never consumed because the
step loop runs `round(0) = 0` times), no error occurs, and the entire effect
of `draw_line` on the grid is the single `draw_pixel` write at `(x2, y2)` —
for any model of `f64::sqrt` that sends `0` to `0`, as IEEE `sqrt` does. -/
theorem C6_duplicate_point_single_write (sqrtf : ℚ → ℚ) (hs : sqrtf 0 = 0)
    (s : Surface) (x y : Int) (c : Char) :
    Surface.draw_line sqrtf s x y x y c = (s.draw_pixel x y c).1 := by
  have hdist : Surface.distance sqrtf x y x y = 0 := by
    unfold Surface.distance
    rw [sub_self, sub_self]
    norm_num [hs]
  have hround : (roundQ 0).toNat = 0 := by
    have hf : ⌊(2⁻¹ : ℚ)⌋ = 0 := by
      rw [Int.floor_eq_zero_iff, Set.mem_Ico]
      norm_num
    simp [roundQ, hf]
  unfold Surface.draw_line
  dsimp only
  rw [if_pos rfl, if_pos rfl, sub_self, sub_self,
    Surface.draw_straight_line_zero, Surface.draw_straight_line_zero,
    hdist, hround]
  rfl

/-- C6 witness: the amended theorem at the concrete duplicate point `(1, 1)`
on a `3 × 3` surface, with `Rat.sqrt` as the square-root model. -/
theorem C6_duplicate_point_single_write_witness :
    Surface.draw_line Rat.sqrt (Surface.new 3 3) 1 1 1 1 '#' =
      ((Surface.new 3 3).draw_pixel 1 1 '#').1 :=
  C6_duplicate_point_single_write Rat.sqrt (by decide) (Surface.new 3 3) 1 1 '#'

namespace Surface

theorem inBounds_of_pres {s t : Surface} (h : pres s t) (px py : Int) :
    t.inBounds px py ↔ s.inBounds px py := by
  unfold inBounds
  rw [h.1, h.2.1]

theorem getCell_blitRow (row : List Char) : ∀ (s : Surface) (x yy : Int) (j : Nat)
    (px py : Int), s.wellFormed →
    (blitRow s x yy row j).getCell px py =
      if py = yy ∧ x + (j : Int) ≤ px ∧ (px - x - (j : Int)).toNat < row.length
          ∧ row.getD (px - x - (j : Int)).toNat ' ' ≠ ' ' ∧ s.inBounds px py
      then some (row.getD (px - x - (j : Int)).toNat ' ')
      else s.getCell px py := by
  induction row with
  | nil =>
      intro s x yy j px py hWF
      simp [blitRow]
  | cons cc rest ih =>
      intro s x yy j px py hWF
      show (blitRow (if cc = ' ' then s else (s.draw_pixel (x + (j : Int)) yy cc).1)
        x yy rest (j + 1)).getCell px py = _
      set s1 := if cc = ' ' then s else (s.draw_pixel (x + (j : Int)) yy cc).1 with hs1
      have hpres : pres s s1 := by
        rw [hs1]; split
        · exact pres_refl s
        · exact pres_draw_pixel ..
      have hWF1 : s1.wellFormed := hpres.2.2 hWF
      have hcell : ∀ qx qy : Int, s1.getCell qx qy =
          if qx = x + (j : Int) ∧ qy = yy ∧ cc ≠ ' ' ∧ s.inBounds qx qy
          then some cc else s.getCell qx qy := by
        intro qx qy
        rw [hs1]
        by_cases hsp : cc = ' '
        · rw [if_pos hsp,
            if_neg (by rintro ⟨_, _, hne, _⟩; exact hne hsp)]
        · rw [if_neg hsp, getCell_draw_pixel s hWF _ _ _ _ _]
          by_cases heq : qx = x + (j : Int) ∧ qy = yy
          · obtain ⟨h1, h2⟩ := heq
            by_cases hb : s.inBounds qx qy
            · have hb2 : s.inBounds (x + (j : Int)) yy := by rwa [h1, h2] at hb
              rw [if_pos ⟨h1, h2, hb2⟩, if_pos ⟨h1, h2, hsp, hb⟩]
            · rw [if_neg (by rintro ⟨hh1, hh2, h⟩; exact hb (by rwa [hh1, hh2])),
                if_neg (by rintro ⟨_, _, _, h⟩; exact hb h)]
          · rw [if_neg (by rintro ⟨h1, h2, _⟩; exact heq ⟨h1, h2⟩),
              if_neg (by rintro ⟨h1, h2, _, _⟩; exact heq ⟨h1, h2⟩)]
      rw [ih s1 x yy (j + 1) px py hWF1]
      by_cases hpy : py = yy
      case neg =>
        rw [if_neg (by rintro ⟨h, _⟩; exact hpy h),
          if_neg (by rintro ⟨h, _⟩; exact hpy h), hcell,
          if_neg (by rintro ⟨_, h, _⟩; exact hpy h)]
      case pos =>
        subst hpy
        rcases lt_trichotomy px (x + (j : Int)) with hlt | heq | hgt
        · rw [if_neg (by rintro ⟨_, h, _⟩; omega),
            if_neg (by rintro ⟨_, h, _⟩; omega), hcell,
            if_neg (by rintro ⟨h, _⟩; omega)]
        · rw [if_neg (by rintro ⟨_, h, _⟩; omega), hcell]
          have hidx0 : (px - x - (j : Int)).toNat = 0 := by omega
          rw [hidx0, List.getD_cons_zero]
          by_cases hcb : cc ≠ ' ' ∧ s.inBounds px py
          · rw [if_pos ⟨heq, rfl, hcb.1, hcb.2⟩,
              if_pos ⟨rfl, by omega, by simp, hcb.1, hcb.2⟩]
          · rw [if_neg (by rintro ⟨_, _, hn, hb⟩; exact hcb ⟨hn, hb⟩),
              if_neg (by rintro ⟨_, _, _, hn, hb⟩; exact hcb ⟨hn, hb⟩)]
        · have hd : (px - x - ((j : Int) + 1)).toNat + 1 = (px - x - (j : Int)).toNat := by
            omega
          have hgetD : (cc :: rest).getD (px - x - (j : Int)).toNat ' ' =
              rest.getD (px - x - ((j : Int) + 1)).toNat ' ' := by
            rw [← hd]
            rfl
          have hc1 : s1.getCell px py = s.getCell px py := by
            rw [hcell]
            exact if_neg (by rintro ⟨h, _⟩; omega)
          simp only [Nat.cast_add, Nat.cast_one]
          rw [hc1, hgetD]
          simp only [inBounds_of_pres hpres]
          refine if_congr ?_ rfl rfl
          constructor
          · rintro ⟨_, _, h3, h4, h5⟩
            refine ⟨trivial, by omega, ?_, h4, h5⟩
            simp only [List.length_cons]
            omega
          · rintro ⟨_, _, h3, h4, h5⟩
            simp only [List.length_cons] at h3
            exact ⟨trivial, by omega, by omega, h4, h5⟩

end Surface

namespace Surface

theorem getCell_blitRows (rows : List (List Char)) : ∀ (s : Surface) (x y : Int)
    (i : Nat) (px py : Int), s.wellFormed →
    (blitRows s x y rows i).getCell px py =
      if y + (i : Int) ≤ py ∧ (py - y - (i : Int)).toNat < rows.length
          ∧ x ≤ px ∧ (px - x).toNat < (rows.getD (py - y - (i : Int)).toNat []).length
          ∧ (rows.getD (py - y - (i : Int)).toNat []).getD (px - x).toNat ' ' ≠ ' '
          ∧ s.inBounds px py
      then some ((rows.getD (py - y - (i : Int)).toNat []).getD (px - x).toNat ' ')
      else s.getCell px py := by
  induction rows with
  | nil =>
      intro s x y i px py hWF
      simp [blitRows]
  | cons row rest ih =>
      intro s x y i px py hWF
      show (blitRows (blitRow s x (y + (i : Int)) row 0) x y rest (i + 1)).getCell px py = _
      set s1 := blitRow s x (y + (i : Int)) row 0 with hs1
      have hpres : pres s s1 := pres_blitRow ..
      have hWF1 : s1.wellFormed := hpres.2.2 hWF
      have hrowcell := getCell_blitRow row s x (y + (i : Int)) 0 px py hWF
      rw [ih s1 x y (i + 1) px py hWF1]
      rcases lt_trichotomy py (y + (i : Int)) with hlt | heq | hgt
      · rw [if_neg (by rintro ⟨h, _⟩; omega), hs1, hrowcell,
          if_neg (by rintro ⟨h, _⟩; omega),
          if_neg (by rintro ⟨h, _⟩; omega)]
      · have hidx0 : (py - y - (i : Int)).toNat = 0 := by omega
        rw [if_neg (by rintro ⟨h, _⟩; omega), hs1, hrowcell, hidx0,
          List.getD_cons_zero]
        simp only [Nat.cast_zero, sub_zero, add_zero]
        refine if_congr ?_ rfl rfl
        constructor
        · rintro ⟨_, h2, h3, h4, h5⟩
          exact ⟨by omega, by simp, h2, h3, h4, h5⟩
        · rintro ⟨_, _, h2, h3, h4, h5⟩
          exact ⟨by omega, h2, h3, h4, h5⟩
      · have hd : (py - y - ((i : Int) + 1)).toNat + 1 = (py - y - (i : Int)).toNat := by
          omega
        have hgetD : (row :: rest).getD (py - y - (i : Int)).toNat [] =
            rest.getD (py - y - ((i : Int) + 1)).toNat [] := by
          rw [← hd]
          rfl
        have hc1 : s1.getCell px py = s.getCell px py := by
          rw [hs1, hrowcell]
          exact if_neg (by rintro ⟨h, _⟩; omega)
        simp only [Nat.cast_add, Nat.cast_one]
        rw [hc1, hgetD]
        simp only [inBounds_of_pres hpres]
        refine if_congr ?_ rfl rfl
        constructor
        · rintro ⟨_, h2, h3, h4, h5, h6⟩
          refine ⟨by omega, ?_, h3, h4, h5, h6⟩
          simp only [List.length_cons]
          omega
        · rintro ⟨_, h2, h3, h4, h5, h6⟩
          simp only [List.length_cons] at h2
          exact ⟨by omega, by omega, h3, h4, h5, h6⟩


/-- Pointwise effect of `blit` on a well-formed surface `s`: a cell of `s`
receives the corresponding cell of `other` when that cell exists, is not a
space and the target is addressable; otherwise it is unchanged. -/
theorem getCell_blit (s other : Surface) (x y px py : Int) (hWF : s.wellFormed) :
    (s.blit x y other).getCell px py =
      match other.getCell (px - x) (py - y) with
      | some oc => if oc ≠ ' ' ∧ s.inBounds px py then some oc else s.getCell px py
      | none => s.getCell px py := by
  rw [show s.blit x y other = blitRows s x y other.data 0 from rfl,
    getCell_blitRows other.data s x y 0 px py hWF]
  simp only [Nat.cast_zero, sub_zero, add_zero]
  by_cases hnn : 0 ≤ px - x ∧ 0 ≤ py - y
  case neg =>
    have hoc : other.getCell (px - x) (py - y) = none := by
      unfold getCell
      rw [if_neg hnn]
    rw [hoc]
    show _ = s.getCell px py
    exact if_neg (fun ⟨h1, _, h3, _⟩ => hnn ⟨by omega, by omega⟩)
  case pos =>
    obtain ⟨hx0, hy0⟩ := hnn
    cases hrow : other.data.get? (py - y).toNat with
    | none =>
        have hoc : other.getCell (px - x) (py - y) = none := by
          unfold getCell
          rw [if_pos ⟨hx0, hy0⟩, hrow]
          rfl
        have hlen : other.data.length ≤ (py - y).toNat := List.get?_eq_none.mp hrow
        rw [hoc]
        show _ = s.getCell px py
        exact if_neg (by rintro ⟨_, h2, _⟩; omega)
    | some row =>
        have hrowlt : (py - y).toNat < other.data.length := by
          by_contra hc
          rw [List.get?_eq_none.mpr (by omega)] at hrow
          exact Option.noConfusion hrow
        have hgetDrow : other.data.getD (py - y).toNat [] = row := by
          rw [List.getD_eq_getElem?_getD, ← List.get?_eq_getElem?, hrow]
          rfl
        cases hcc : row.get? (px - x).toNat with
        | none =>
            have hoc : other.getCell (px - x) (py - y) = none := by
              unfold getCell
              rw [if_pos ⟨hx0, hy0⟩, hrow]
              exact hcc
            have hlen2 : row.length ≤ (px - x).toNat := List.get?_eq_none.mp hcc
            rw [hoc]
            show _ = s.getCell px py
            exact if_neg (by rintro ⟨_, _, _, h4, _⟩; rw [hgetDrow] at h4; omega)
        | some oc =>
            have hoc : other.getCell (px - x) (py - y) = some oc := by
              unfold getCell
              rw [if_pos ⟨hx0, hy0⟩, hrow]
              exact hcc
            have hcclt : (px - x).toNat < row.length := by
              by_contra hc
              rw [List.get?_eq_none.mpr (by omega)] at hcc
              exact Option.noConfusion hcc
            have hgetDcc : row.getD (px - x).toNat ' ' = oc := by
              rw [List.getD_eq_getElem?_getD, ← List.get?_eq_getElem?, hcc]
              rfl
            rw [hoc, hgetDrow, hgetDcc]
            show _ = if oc ≠ ' ' ∧ s.inBounds px py then some oc else s.getCell px py
            by_cases hfin : oc ≠ ' ' ∧ s.inBounds px py
            · rw [if_pos ⟨by omega, hrowlt, by omega, hcclt, hfin.1, hfin.2⟩,
                if_pos hfin]
            · rw [if_neg (by rintro ⟨_, _, _, _, hn, hb⟩; exact hfin ⟨hn, hb⟩),
                if_neg hfin]

/-- Blitting an all-space row changes nothing. -/
theorem blitRow_allspace (row : List Char) : ∀ (s : Surface) (x yy : Int) (j : Nat),
    (∀ cc ∈ row, cc = ' ') → blitRow s x yy row j = s := by
  induction row with
  | nil => intro s x yy j _; rfl
  | cons cc rest ih =>
      intro s x yy j hsp
      show blitRow (if cc = ' ' then s else _) x yy rest (j + 1) = s
      rw [if_pos (hsp cc (by simp))]
      exact ih s x yy (j + 1) (fun d hd => hsp d (by simp [hd]))

/-- Blitting an all-space grid changes nothing. -/
theorem blitRows_allspace (rows : List (List Char)) : ∀ (s : Surface) (x y : Int)
    (i : Nat), (∀ row ∈ rows, ∀ cc ∈ row, cc = ' ') → blitRows s x y rows i = s := by
  induction rows with
  | nil => intro s x y i _; rfl
  | cons row rest ih =>
      intro s x y i hsp
      show blitRows (blitRow s x (y + (i : Int)) row 0) x y rest (i + 1) = s
      rw [blitRow_allspace row s x (y + (i : Int)) 0 (hsp row (by simp))]
      exact ih s x y (i + 1) (fun r hr => hsp r (by simp [hr]))

/-- The cells of a freshly filled surface: `c` inside the rectangle,
nothing outside. -/
theorem getCell_fill_new (w h : Nat) (c : Char) (a b : Int) :
    ((new w h).fill c).getCell a b =
      if 0 ≤ a ∧ a < (w : Int) ∧ 0 ≤ b ∧ b < (h : Int) then some c else none := by
  unfold new fill getCell
  dsimp only
  by_cases hnn : 0 ≤ a ∧ 0 ≤ b
  case neg =>
    rw [if_neg hnn, if_neg (by rintro ⟨h1, _, h2, _⟩; exact hnn ⟨h1, h2⟩)]
  case pos =>
    rw [if_pos hnn]
    simp only [List.get?_eq_getElem?, List.getElem?_replicate]
    by_cases hb : b.toNat < h
    · rw [if_pos hb]
      show (List.replicate w c)[a.toNat]? = _
      rw [List.getElem?_replicate]
      by_cases ha : a.toNat < w
      · rw [if_pos ha, if_pos ⟨hnn.1, by omega, hnn.2, by omega⟩]
      · rw [if_neg ha, if_neg (by rintro ⟨_, h2, _, _⟩; omega)]
    · rw [if_neg hb]
      rw [if_neg (by rintro ⟨_, _, _, h4⟩; omega)]
      rfl

end Surface

/-- C4: `blit` treats spaces of `other` as transparent — every cell of `self`
whose corresponding cell of `other` is a space (or outside `other`) is
unchanged, every addressable cell covered by a non-space cell of `other` is
overwritten with it; blitting an all-space surface changes nothing, and
blitting an all-`'#'` fill onto an equal-sized all-`'.'` fill at `(0, 0)`
yields an all-`'#'` surface. -/
theorem C4_blit_transparent_overlay (s other : Surface) (x y px py : Int)
    (hWF : s.wellFormed) :
    ((s.blit x y other).getCell px py =
      match other.getCell (px - x) (py - y) with
      | some oc => if oc ≠ ' ' ∧ s.inBounds px py then some oc else s.getCell px py
      | none => s.getCell px py)
    ∧ ((∀ row ∈ other.data, ∀ cc ∈ row, cc = ' ') → s.blit x y other = s)
    ∧ ∀ w h : Nat,
        (((Surface.new w h).fill '.').blit 0 0 ((Surface.new w h).fill '#')).getCell px py
          = if 0 ≤ px ∧ px < (w : Int) ∧ 0 ≤ py ∧ py < (h : Int) then some '#' else none := by
  refine ⟨Surface.getCell_blit s other x y px py hWF,
    fun hsp => Surface.blitRows_allspace other.data s x y 0 hsp, fun w h => ?_⟩
  have hWF2 : ((Surface.new w h).fill '.').wellFormed :=
    (Surface.pres_fill (Surface.new w h) '.').2.2 (Surface.wf_new w h)
  rw [Surface.getCell_blit _ _ 0 0 px py hWF2, sub_zero, sub_zero,
    Surface.getCell_fill_new w h '#' px py]
  by_cases hb : 0 ≤ px ∧ px < (w : Int) ∧ 0 ≤ py ∧ py < (h : Int)
  · rw [if_pos hb]
    show (if ('#' ≠ ' ') ∧ ((Surface.new w h).fill '.').inBounds px py
      then some '#' else ((Surface.new w h).fill '.').getCell px py) = some '#'
    exact if_pos ⟨by decide, hb⟩
  · rw [if_neg hb]
    show ((Surface.new w h).fill '.').getCell px py = none
    rw [Surface.getCell_fill_new w h '.' px py, if_neg hb]

/-- C4 witness: the theorem at a concrete pair of `2 × 2` surfaces and cell
`(1, 1)`. -/
theorem C4_blit_transparent_overlay_witness :
    ((((Surface.new 2 2).fill '.').blit 0 0 ((Surface.new 2 2).fill '#')).getCell 1 1 =
      match ((Surface.new 2 2).fill '#').getCell (1 - 0) (1 - 0) with
      | some oc => if oc ≠ ' ' ∧ ((Surface.new 2 2).fill '.').inBounds 1 1 then some oc
          else ((Surface.new 2 2).fill '.').getCell 1 1
      | none => ((Surface.new 2 2).fill '.').getCell 1 1)
    ∧ ((∀ row ∈ ((Surface.new 2 2).fill '#').data, ∀ cc ∈ row, cc = ' ') →
        ((Surface.new 2 2).fill '.').blit 0 0 ((Surface.new 2 2).fill '#') =
          (Surface.new 2 2).fill '.')
    ∧ ∀ w h : Nat,
        (((Surface.new w h).fill '.').blit 0 0 ((Surface.new w h).fill '#')).getCell 1 1
          = if 0 ≤ (1 : Int) ∧ (1 : Int) < (w : Int) ∧ 0 ≤ (1 : Int) ∧ (1 : Int) < (h : Int)
            then some '#' else none :=
  C4_blit_transparent_overlay ((Surface.new 2 2).fill '.') ((Surface.new 2 2).fill '#')
    0 0 1 1 (by decide)

namespace Surface

/-- On a well-formed surface the guarded `draw_pixel` cannot fail and agrees
with the total model. -/
theorem draw_pixelE_eq (s : Surface) (hWF : s.wellFormed) (x y : Int) (c : Char) :
    s.draw_pixelE x y c = some (s.draw_pixel x y c) := by
  obtain ⟨hl, hrows⟩ := hWF
  unfold draw_pixelE draw_pixel setCellE
  by_cases hin : 0 ≤ x ∧ x < (s.width : Int) ∧ 0 ≤ y ∧ y < (s.height : Int)
  case neg => rw [if_neg hin, if_neg hin]
  case pos =>
    rw [if_pos hin, if_pos hin]
    have hy : y.toNat < s.data.length := by rw [hl]; omega
    have hrowD : s.data.getD y.toNat [] = s.data[y.toNat] := by
      rw [List.getD_eq_getElem?_getD, List.getElem?_eq_getElem hy]
      rfl
    rw [show s.data.get? y.toNat = some s.data[y.toNat] by
      rw [List.get?_eq_getElem?, List.getElem?_eq_getElem hy]]
    show (if x.toNat < s.data[y.toNat].length then _ else none).map _ = _
    rw [if_pos (by rw [hrows _ (List.getElem_mem hy)]; omega)]
    rw [hrowD]
    rfl

theorem slLoopE_eq (n : Nat) : ∀ (s : Surface) (x y ax ay : Int) (c : Char),
    s.wellFormed → slLoopE s x y ax ay c n = some (slLoop s x y ax ay c n) := by
  induction n with
  | zero => intro s x y ax ay c _; rfl
  | succ n ih =>
      intro s x y ax ay c hWF
      show (s.draw_pixelE x y c).bind _ = _
      rw [draw_pixelE_eq s hWF x y c]
      show slLoopE (s.draw_pixel x y c).1 _ _ _ _ c n = _
      exact ih _ _ _ _ _ _ ((pres_draw_pixel s x y c).2.2 hWF)

theorem draw_straight_lineE_eq (s : Surface) (hWF : s.wellFormed) (x y L : Int)
    (dir : Direction) (c : Char) :
    s.draw_straight_lineE x y L dir c = some (s.draw_straight_line x y L dir c) := by
  unfold draw_straight_lineE draw_straight_line
  cases dir <;> dsimp only <;> split <;> exact slLoopE_eq _ _ _ _ _ _ _ hWF

theorem rectFillLoopE_eq (n : Nat) : ∀ (s : Surface) (x y : Int) (height : Nat)
    (c : Char) (i : Nat), s.wellFormed →
    rectFillLoopE x y height c s i n = some (rectFillLoop s x y height c i n) := by
  induction n with
  | zero => intro s x y height c i _; rfl
  | succ n ih =>
      intro s x y height c i hWF
      show (s.draw_straight_lineE _ _ _ _ _).bind _ = _
      rw [draw_straight_lineE_eq s hWF]
      show rectFillLoopE x y height c _ (i + 1) n = _
      exact ih _ _ _ _ _ _ ((pres_draw_straight_line ..).2.2 hWF)

theorem draw_rectangleE_eq (s : Surface) (hWF : s.wellFormed) (x y : Int)
    (width height : Nat) (c : Char) (fillFlag : Bool)
    (hok : fillFlag = true ∨ 2 ≤ height) :
    s.draw_rectangleE x y width height c fillFlag =
      some (s.draw_rectangle x y width height c fillFlag) := by
  unfold draw_rectangleE draw_rectangle
  cases fillFlag with
  | true =>
      show rectFillLoopE x y height c s 0 width = _
      exact rectFillLoopE_eq _ _ _ _ _ _ _ hWF
  | false =>
      have h2 : 2 ≤ height := by
        rcases hok with h | h
        · exact absurd h (by simp)
        · exact h
      have hWF1 : (s.draw_straight_line x y (width : Int) .Right c).wellFormed :=
        (pres_draw_straight_line ..).2.2 hWF
      have hWF2 : ((s.draw_straight_line x y (width : Int) .Right c).draw_straight_line x
          (y + (height : Int) - 1) (width : Int) .Right c).wellFormed :=
        (pres_draw_straight_line ..).2.2 hWF1
      have hWF3 : (((s.draw_straight_line x y (width : Int) .Right c).draw_straight_line x
          (y + (height : Int) - 1) (width : Int) .Right c).draw_straight_line x (y + 1)
          ((height - 2 : Nat) : Int) .Down c).wellFormed :=
        (pres_draw_straight_line ..).2.2 hWF2
      rw [draw_straight_lineE_eq s hWF]
      simp only [Option.some_bind]
      rw [draw_straight_lineE_eq _ hWF1]
      simp only [Option.some_bind]
      rw [show checkedSub height 2 = some (height - 2) from if_pos h2]
      simp only [Option.some_bind]
      rw [draw_straight_lineE_eq _ hWF2]
      simp only [Option.some_bind]
      rw [draw_straight_lineE_eq _ hWF3]
      rfl


theorem lineLoopE_eq (n : Nat) : ∀ (s : Surface) (qx qy dx dy : ℚ) (c : Char),
    s.wellFormed → lineLoopE s qx qy dx dy c n = some (lineLoop s qx qy dx dy c n) := by
  induction n with
  | zero => intro s qx qy dx dy c _; rfl
  | succ n ih =>
      intro s qx qy dx dy c hWF
      show (s.draw_pixelE (roundQ qx) (roundQ qy) c).bind _ = _
      rw [draw_pixelE_eq s hWF]
      show lineLoopE (s.draw_pixel (roundQ qx) (roundQ qy) c).1 _ _ _ _ c n = _
      exact ih _ _ _ _ _ _ ((pres_draw_pixel ..).2.2 hWF)

theorem draw_lineE_eq (sqrtf : ℚ → ℚ) (s : Surface) (hWF : s.wellFormed)
    (x1 y1 x2 y2 : Int) (c : Char) :
    draw_lineE sqrtf s x1 y1 x2 y2 c = some (draw_line sqrtf s x1 y1 x2 y2 c) := by
  unfold draw_lineE draw_line
  dsimp only
  have h1 : (if x1 = x2 then s.draw_straight_lineE x1 y1 (y2 - y1) .Down c else some s)
      = some (if x1 = x2 then s.draw_straight_line x1 y1 (y2 - y1) .Down c else s) := by
    by_cases hx : x1 = x2
    · rw [if_pos hx, if_pos hx, draw_straight_lineE_eq s hWF]
    · rw [if_neg hx, if_neg hx]
  have hWFa : (if x1 = x2 then s.draw_straight_line x1 y1 (y2 - y1) .Down c else s).wellFormed := by
    split
    · exact (pres_draw_straight_line ..).2.2 hWF
    · exact hWF
  rw [h1]
  simp only [Option.some_bind]
  have h2 : (if y1 = y2 then
        (if x1 = x2 then s.draw_straight_line x1 y1 (y2 - y1) .Down c
          else s).draw_straight_lineE x1 y1 (x2 - x1) .Right c
      else some (if x1 = x2 then s.draw_straight_line x1 y1 (y2 - y1) .Down c else s))
      = some (if y1 = y2 then
        (if x1 = x2 then s.draw_straight_line x1 y1 (y2 - y1) .Down c
          else s).draw_straight_line x1 y1 (x2 - x1) .Right c
      else (if x1 = x2 then s.draw_straight_line x1 y1 (y2 - y1) .Down c else s)) := by
    by_cases hy : y1 = y2
    · rw [if_pos hy, if_pos hy, draw_straight_lineE_eq _ hWFa]
    · rw [if_neg hy, if_neg hy]
  have hWFb : (if y1 = y2 then
      (if x1 = x2 then s.draw_straight_line x1 y1 (y2 - y1) .Down c
        else s).draw_straight_line x1 y1 (x2 - x1) .Right c
    else (if x1 = x2 then s.draw_straight_line x1 y1 (y2 - y1) .Down c else s)).wellFormed := by
    split
    · exact (pres_draw_straight_line ..).2.2 hWFa
    · exact hWFa
  rw [h2]
  simp only [Option.some_bind]
  rw [lineLoopE_eq _ _ _ _ _ _ _ hWFb]
  simp only [Option.some_bind]
  rw [draw_pixelE_eq _ ((pres_lineLoop ..).2.2 hWFb)]
  rfl

theorem ellipseColumnE_eq (sqrtf : ℚ → ℚ) (s : Surface) (hWF : s.wellFormed)
    (h k : Int) (a b : Nat) (c : Char) (fillFlag : Bool) (x : Nat) :
    ellipseColumnE sqrtf s h k a b c fillFlag x =
      some (ellipseColumn sqrtf s h k a b c fillFlag x) := by
  unfold ellipseColumnE ellipseColumn
  dsimp only
  split
  · exact draw_straight_lineE_eq s hWF ..
  · rw [draw_pixelE_eq s hWF]
    simp only [Option.some_bind]
    rw [draw_pixelE_eq _ ((pres_draw_pixel ..).2.2 hWF)]
    rfl

theorem ellipseLoopE_eq (n : Nat) : ∀ (sqrtf : ℚ → ℚ) (s : Surface) (h k : Int)
    (a b : Nat) (c : Char) (fillFlag : Bool) (x : Nat), s.wellFormed →
    ellipseLoopE sqrtf h k a b c fillFlag s x n =
      some (ellipseLoop sqrtf s h k a b c fillFlag x n) := by
  induction n with
  | zero => intro sqrtf s h k a b c fillFlag x _; rfl
  | succ n ih =>
      intro sqrtf s h k a b c fillFlag x hWF
      show (ellipseColumnE sqrtf s h k a b c fillFlag x).bind _ = _
      rw [ellipseColumnE_eq sqrtf s hWF]
      show ellipseLoopE sqrtf h k a b c fillFlag _ (x + 1) n = _
      exact ih _ _ _ _ _ _ _ _ _ ((pres_ellipseColumn ..).2.2 hWF)

theorem draw_ellipseE_eq (sqrtf : ℚ → ℚ) (s : Surface) (hWF : s.wellFormed)
    (h k : Int) (a b : Nat) (c : Char) (fillFlag : Bool) :
    draw_ellipseE sqrtf s h k a b c fillFlag =
      some (draw_ellipse sqrtf s h k a b c fillFlag) :=
  ellipseLoopE_eq _ _ _ _ _ _ _ _ _ _ hWF

theorem textLoopE_eq (l : List Char) : ∀ (s : Surface) (x y : Int) (i : Nat),
    s.wellFormed → textLoopE x y s l i = some (textLoop s x y l i) := by
  induction l with
  | nil => intro s x y i _; rfl
  | cons c rest ih =>
      intro s x y i hWF
      show (s.draw_pixelE (x + (i : Int)) y c).bind _ = _
      rw [draw_pixelE_eq s hWF]
      show textLoopE x y _ rest (i + 1) = _
      exact ih _ _ _ _ ((pres_draw_pixel ..).2.2 hWF)

theorem draw_textE_eq (s : Surface) (hWF : s.wellFormed) (x y : Int) (t : String) :
    s.draw_textE x y t = some (s.draw_text x y t) :=
  textLoopE_eq _ _ _ _ _ hWF

theorem blitRowE_eq (row : List Char) : ∀ (s : Surface) (x yy : Int) (j : Nat),
    s.wellFormed → blitRowE x yy s row j = some (blitRow s x yy row j) := by
  induction row with
  | nil => intro s x yy j _; rfl
  | cons c rest ih =>
      intro s x yy j hWF
      show (if c = ' ' then some s else (s.draw_pixelE (x + (j : Int)) yy c).map _).bind _ = _
      have hWF1 : (if c = ' ' then s else (s.draw_pixel (x + (j : Int)) yy c).1).wellFormed := by
        split
        · exact hWF
        · exact (pres_draw_pixel ..).2.2 hWF
      have h1 : (if c = ' ' then some s else (s.draw_pixelE (x + (j : Int)) yy c).map (·.1))
          = some (if c = ' ' then s else (s.draw_pixel (x + (j : Int)) yy c).1) := by
        by_cases hc : c = ' '
        · rw [if_pos hc, if_pos hc]
        · rw [if_neg hc, if_neg hc, draw_pixelE_eq s hWF]
          rfl
      rw [h1]
      simp only [Option.some_bind]
      exact ih _ _ _ _ hWF1

theorem blitRowsE_eq (rows : List (List Char)) : ∀ (s : Surface) (x y : Int) (i : Nat),
    s.wellFormed → blitRowsE x y s rows i = some (blitRows s x y rows i) := by
  induction rows with
  | nil => intro s x y i _; rfl
  | cons row rest ih =>
      intro s x y i hWF
      show (blitRowE x (y + (i : Int)) s row 0).bind _ = _
      rw [blitRowE_eq row s x (y + (i : Int)) 0 hWF]
      simp only [Option.some_bind]
      exact ih _ _ _ _ ((pres_blitRow ..).2.2 hWF)

theorem blitE_eq (s : Surface) (hWF : s.wellFormed) (x y : Int) (other : Surface) :
    s.blitE x y other = some (s.blit x y other) :=
  blitRowsE_eq _ _ _ _ _ hWF


theorem polyLoopE_eq (sqrtf : ℚ → ℚ) (pts : List (List Int)) (c : Char)
    (hpts : ∀ p ∈ pts, 2 ≤ p.length) :
    ∀ (n i : Nat), i + n = pts.length → ∀ s : Surface, s.wellFormed →
    polyLoopE sqrtf pts c s i n = some (polyLoop sqrtf s pts c i n) := by
  intro n
  induction n with
  | zero => intro i _ s _; rfl
  | succ n ih =>
      intro i hi s hWF
      have hilt : i < pts.length := by omega
      have hnlt : (if i + 1 ≥ pts.length then 0 else i + 1) < pts.length := by
        split <;> omega
      obtain ⟨pi, hpi⟩ : ∃ pi, pts.get? i = some pi := by
        rw [List.get?_eq_getElem?, List.getElem?_eq_getElem hilt]
        exact ⟨_, rfl⟩
      have hpil : 2 ≤ pi.length := hpts _ (List.get?_mem hpi)
      obtain ⟨px, py, tl, rfl⟩ : ∃ px py tl, pi = px :: py :: tl := by
        match pi, hpil with
        | px :: py :: tl, _ => exact ⟨px, py, tl, rfl⟩
      obtain ⟨pn, hpn⟩ : ∃ pn,
          pts.get? (if i + 1 ≥ pts.length then 0 else i + 1) = some pn := by
        rw [List.get?_eq_getElem?, List.getElem?_eq_getElem hnlt]
        exact ⟨_, rfl⟩
      have hpnl : 2 ≤ pn.length := hpts _ (List.get?_mem hpn)
      obtain ⟨nx, ny, tn, rfl⟩ : ∃ nx ny tn, pn = nx :: ny :: tn := by
        match pn, hpnl with
        | nx :: ny :: tn, _ => exact ⟨nx, ny, tn, rfl⟩
      have hgdi : pts.getD i [] = px :: py :: tl := by
        rw [List.getD_eq_getElem?_getD, ← List.get?_eq_getElem?, hpi]
        rfl
      have hgdn : pts.getD (if i + 1 ≥ pts.length then 0 else i + 1) [] =
          nx :: ny :: tn := by
        rw [List.getD_eq_getElem?_getD, ← List.get?_eq_getElem?, hpn]
        rfl
      rw [show polyLoop sqrtf s pts c i (n + 1) = polyLoop sqrtf
          (draw_line sqrtf s ((pts.getD i []).getD 0 0) ((pts.getD i []).getD 1 0)
            ((pts.getD (if i + 1 ≥ pts.length then 0 else i + 1) []).getD 0 0)
            ((pts.getD (if i + 1 ≥ pts.length then 0 else i + 1) []).getD 1 0) c)
          pts c (i + 1) n from rfl]
      rw [hgdi, hgdn]
      show (pts.get? i).bind _ = _
      rw [hpi]
      show (pts.get? (if i + 1 ≥ pts.length then 0 else i + 1)).bind _ = _
      rw [hpn]
      show (draw_lineE sqrtf s px py nx ny c).bind _ = _
      rw [draw_lineE_eq sqrtf s hWF]
      show polyLoopE sqrtf pts c (draw_line sqrtf s px py nx ny c) (i + 1) n = _
      exact ih (i + 1) (by omega) _ ((pres_draw_line ..).2.2 hWF)

theorem draw_polygonE_eq (sqrtf : ℚ → ℚ) (s : Surface) (hWF : s.wellFormed)
    (points : List (List Int)) (c : Char) (hpts : ∀ p ∈ points, 2 ≤ p.length) :
    draw_polygonE sqrtf s points c = some (draw_polygon sqrtf s points c) :=
  polyLoopE_eq sqrtf points c hpts points.length 0 (by omega) s hWF

end Surface

/-- C3 (counterexample): two drawing operations do reach an error branch in
the guarded embedding — `draw_polygon` with the point vector `[[]]` (the
index `points[0][0]` is out of bounds; the rust code panics) and the unfilled
`draw_rectangle` with `height = 1` (the `usize` subtraction `height - 2`
underflows; the rust code panics in debug builds). -/
theorem C3_counterexample :
    Surface.draw_polygonE Rat.sqrt (Surface.new 3 3) [[]] '#' = none
    ∧ Surface.draw_rectangleE (Surface.new 3 3) 0 0 2 1 '#' false = none := by
  constructor
  · rfl
  · rfl

/-- C3 (amended): in the guarded embedding every drawing operation on a
well-formed surface reaches no error branch for any argument values, with
exactly two exceptions forced by the counterexample: the unfilled
`draw_rectangle` requires `height ≥ 2` (its `usize` subtraction `height - 2`)
and `draw_polygon` requires every point vector to have at least two
coordinates (its `points[i][0]` / `points[i][1]` indexing).  Under those side
conditions each guarded operation succeeds and agrees with the total model. -/
theorem C3_no_panic_amended (s : Surface) (hWF : s.wellFormed) :
    (∀ x y c, s.draw_pixelE x y c = some (s.draw_pixel x y c))
    ∧ (∀ x y L dir c,
        s.draw_straight_lineE x y L dir c = some (s.draw_straight_line x y L dir c))
    ∧ (∀ x y w h c f, f = true ∨ 2 ≤ h →
        s.draw_rectangleE x y w h c f = some (s.draw_rectangle x y w h c f))
    ∧ (∀ sqrtf x1 y1 x2 y2 c,
        Surface.draw_lineE sqrtf s x1 y1 x2 y2 c =
          some (Surface.draw_line sqrtf s x1 y1 x2 y2 c))
    ∧ (∀ sqrtf h k a b c f,
        Surface.draw_ellipseE sqrtf s h k a b c f =
          some (Surface.draw_ellipse sqrtf s h k a b c f))
    ∧ (∀ sqrtf pts c, (∀ p ∈ pts, 2 ≤ p.length) →
        Surface.draw_polygonE sqrtf s pts c = some (Surface.draw_polygon sqrtf s pts c))
    ∧ (∀ x y t, s.draw_textE x y t = some (s.draw_text x y t))
    ∧ (∀ x y other, s.blitE x y other = some (s.blit x y other)) :=
  ⟨fun x y c => Surface.draw_pixelE_eq s hWF x y c,
   fun x y L dir c => Surface.draw_straight_lineE_eq s hWF x y L dir c,
   fun x y w h c f hok => Surface.draw_rectangleE_eq s hWF x y w h c f hok,
   fun sqrtf x1 y1 x2 y2 c => Surface.draw_lineE_eq sqrtf s hWF x1 y1 x2 y2 c,
   fun sqrtf h k a b c f => Surface.draw_ellipseE_eq sqrtf s hWF h k a b c f,
   fun sqrtf pts c hpts => Surface.draw_polygonE_eq sqrtf s hWF pts c hpts,
   fun x y t => Surface.draw_textE_eq s hWF x y t,
   fun x y other => Surface.blitE_eq s hWF x y other⟩

/-- C3 witness: the amended theorem on a fresh `3 × 3` surface, at a filled
rectangle of height 1, a triangle whose point vectors all have two
coordinates, and a blit. -/
theorem C3_no_panic_amended_witness :
    (Surface.new 3 3).draw_rectangleE 0 0 4 1 '#' true =
      some ((Surface.new 3 3).draw_rectangle 0 0 4 1 '#' true)
    ∧ Surface.draw_polygonE Rat.sqrt (Surface.new 3 3) [[1, 1], [7, 3], [5, 7]] '#' =
      some (Surface.draw_polygon Rat.sqrt (Surface.new 3 3) [[1, 1], [7, 3], [5, 7]] '#')
    ∧ (Surface.new 3 3).blitE 1 0 (Surface.new 2 2) =
      some ((Surface.new 3 3).blit 1 0 (Surface.new 2 2)) :=
  ⟨(C3_no_panic_amended (Surface.new 3 3) (by decide)).2.2.1 0 0 4 1 '#' true
      (Or.inl rfl),
   (C3_no_panic_amended (Surface.new 3 3) (by decide)).2.2.2.2.2.1 Rat.sqrt
      [[1, 1], [7, 3], [5, 7]] '#' (by decide),
   (C3_no_panic_amended (Surface.new 3 3) (by decide)).2.2.2.2.2.2.2 1 0
      (Surface.new 2 2)⟩
